import Mathlib

/-!
Verification of the chunk streaming / terrain generation core of a
browser voxel-world renderer.

The development shallowly embeds the TypeScript sources:
* `terrain.ts` (biome classification, terrain height, chunk block
  generation) — pure functions over abstract noise oracles, with
  JavaScript `number` arithmetic modelled by exact rationals `ℚ` and
  `Math.floor` by flooring division;
* the chunk cache & streaming controller (`ensureChunkNow`,
  `enqueueChunk`, `updateChunks`, `processChunkQueue`,
  `manageChunkCache`, `prerenderArea`, worker requests) — a state
  machine `CState` whose maps/sets are association lists in insertion
  order, matching JavaScript `Map`/`Set` iteration semantics.  The
  single worker channel is modelled by explicit `sentRequests` /
  `answeredRequests` message lists plus the key set of the
  `pendingChunkRequests` map; an `async` function that awaits the
  worker contributes only its pre-await effects to the issuing step,
  and its continuation (run when the worker responds) is the separate
  `workerResponse` step, mirroring JavaScript's run-to-completion
  semantics.  Scene attachment is tracked by `sceneKeys` and resource
  disposal by `disposedKeys`.
-/

namespace Voxel

section Everything

attribute [local semireducible] Rat.add Rat.mul Rat.sub Rat.inv Rat.ofScientific

/-- Floor of an exact rational (`Math.floor`). -/
def ratFloor (q : ℚ) : ℤ := Int.fdiv q.num q.den

/- Constants from the sources. -/

def CHUNK_SIZE : ℤ := 16
def MAX_HEIGHT : ℤ := 300
def WATER_LEVEL : ℤ := 60
def FLAT_TERRAIN_HEIGHT : ℤ := 70
def WORLD_SIZE : ℤ := 100
def WORLD_MIN : ℤ := -(WORLD_SIZE / 2)
def WORLD_MAX : ℤ := WORLD_SIZE / 2
def MAX_CACHED_CHUNKS : ℕ := 100

/-- Value of `renderDistance` as initialized at module load (`let renderDistance = 3`). -/
def initialRenderDistance : ℤ := 3

/-- Constant `CHUNK_UNLOAD_DISTANCE = renderDistance + 5` — evaluated once at
module load with the initial render distance, hence a fixed constant that a
later `setRenderDistance` call does not update. -/
def CHUNK_UNLOAD_DISTANCE : ℤ := initialRenderDistance + 5

/-- The biome enum of `terrain.ts` (declaration order preserved). -/
inductive BiomeType
  | Plains
  | Desert
  | Mountains
  | Forest
  deriving DecidableEq

/-- Function `getBiomeAt` from `terrain.ts`: sample the biome noise at 1/200 scale and
classify by strict thresholds -0.5, 0, 0.5. -/
def getBiomeAt (biomeNoise : ℚ → ℚ → ℚ) (x z : ℚ) : BiomeType :=
  let biomeValue := biomeNoise (x / 200) (z / 200)
  if biomeValue < -0.5 then .Desert
  else if biomeValue < 0 then .Plains
  else if biomeValue < 0.5 then .Forest
  else .Mountains

/-- Function `getTerrainHeightAt` from `terrain.ts`, step for step: flat-mode
short-circuit, base octave, detail octave, mountain-biome addition,
desert flattening, cliff term, final `Math.floor`. -/
def getTerrainHeightAt (useFlatTerrain : Bool)
    (mainNoise detailNoise mountainNoise biomeNoise : ℚ → ℚ → ℚ)
    (x z : ℚ) : ℤ :=
  if useFlatTerrain then FLAT_TERRAIN_HEIGHT
  else
    let biome := getBiomeAt biomeNoise x z
    let height0 := (mainNoise (x / 100) (z / 100) + 1) / 2 * 60 + 40
    let height1 := height0 + detailNoise (x / 30) (z / 30) * 10
    let height2 :=
      if biome = .Mountains then
        let mountainValue := mountainNoise (x / 50) (z / 50)
        if mountainValue > 0.1 then height1 + (mountainValue - 0.1) * 2 * 150
        else height1
      else height1
    let height3 := if biome = .Desert then height2 * 0.5 + 40 else height2
    let cliffNoise := mainNoise (x / 20) (z / 20)
    let height4 := if cliffNoise > 0.7 then height3 + (cliffNoise - 0.7) * 100 else height3
    ratFloor height4

/-- Modelled from the spec wording of the height algorithm (claim C7), as an
independent reference: floor of base `(main+1)/2*60+40`, plus `detail*10`,
plus `(mountain-0.1)*2*150` exactly when the biome is Mountains and the
mountain sample exceeds 0.1, the sum replaced by `h*0.5+40` when the biome is
Desert, plus `(main20-0.7)*100` exactly when that sample exceeds 0.7; flat
mode short-circuits to the constant 70. -/
def terrainHeightSpec (useFlatTerrain : Bool)
    (mainNoise detailNoise mountainNoise biomeNoise : ℚ → ℚ → ℚ)
    (x z : ℚ) : ℤ :=
  if useFlatTerrain then 70
  else
    let biome := getBiomeAt biomeNoise x z
    let base := (mainNoise (x / 100) (z / 100) + 1) / 2 * 60 + 40
      + detailNoise (x / 30) (z / 30) * 10
    let mountainTerm :=
      if biome = .Mountains ∧ mountainNoise (x / 50) (z / 50) > 0.1 then
        (mountainNoise (x / 50) (z / 50) - 0.1) * 2 * 150
      else 0
    let afterDesert :=
      if biome = .Desert then (base + mountainTerm) * 0.5 + 40 else base + mountainTerm
    let cliffTerm :=
      if mainNoise (x / 20) (z / 20) > 0.7 then (mainNoise (x / 20) (z / 20) - 0.7) * 100
      else 0
    ratFloor (afterDesert + cliffTerm)

/-! ### Chunk content generation (`generateChunk`) -/

/-- The five terrain noise oracles of `terrain.ts`, bundled. -/
structure TerrainParams where
  useFlatTerrain : Bool
  mainNoise : ℚ → ℚ → ℚ
  detailNoise : ℚ → ℚ → ℚ
  mountainNoise : ℚ → ℚ → ℚ
  biomeNoise : ℚ → ℚ → ℚ
  caveNoise : ℚ → ℚ → ℚ → ℚ

def heightAt (p : TerrainParams) (x z : ℚ) : ℤ :=
  getTerrainHeightAt p.useFlatTerrain p.mainNoise p.detailNoise p.mountainNoise p.biomeNoise x z

def biomeAt (p : TerrainParams) (x z : ℚ) : BiomeType := getBiomeAt p.biomeNoise x z

/-- Material index selection of `generateChunk`'s fill loop (the `switch` on
the biome at the surface, sand/dirt in the shallow subsurface, rock below). -/
def matIndexFor (biome : BiomeType) (y h : ℤ) : ℤ :=
  if y = h then
    match biome with
    | .Desert => 2
    | .Mountains => if y > 120 then 4 else 3
    | _ => 0
  else if y > h - 4 then (if biome = .Desert then 2 else 1)
  else 3

/-- The block grid of `generateChunk` as a function of local coordinates:
`-1` is air, `-2` water, a nonnegative value a material index.  Cells above
the column height stay at their initial `-1`, except the water cell written
at `WATER_LEVEL` for columns with `height < WATER_LEVEL`; within the column,
the mid-height cave band is carved back to air. -/
def blockGrid (p : TerrainParams) (cx cz : ℤ) (x y z : ℕ) : ℤ :=
  let worldX : ℚ := ((cx * CHUNK_SIZE + x : ℤ) : ℚ)
  let worldZ : ℚ := ((cz * CHUNK_SIZE + z : ℤ) : ℚ)
  let height := heightAt p worldX worldZ
  if (y : ℤ) ≤ height then
    if p.caveNoise (worldX / 30) ((y : ℚ) / 30) (worldZ / 30) > 0.7
        ∧ (y : ℤ) < height - 5 ∧ (y : ℤ) > 20 then -1
    else matIndexFor (biomeAt p worldX worldZ) (y : ℤ) height
  else if height < WATER_LEVEL ∧ (y : ℤ) = WATER_LEVEL then -2
  else -1

/-- The 6-neighbor exposure test of `generateChunk`'s render pass, verbatim:
out-of-grid neighbors count as exposed, air (`-1`) everywhere, water (`-2`)
on every face except the one below. -/
def isExposed (grid : ℕ → ℕ → ℕ → ℤ) (x y z : ℕ) : Bool :=
  (decide ((y : ℤ) + 1 ≥ MAX_HEIGHT) || grid x (y + 1) z == -1 || grid x (y + 1) z == -2) ||
  (decide (y = 0) || grid x (y - 1) z == -1) ||
  (decide (z = 0) || grid x y (z - 1) == -1 || grid x y (z - 1) == -2) ||
  (decide ((z : ℤ) + 1 ≥ CHUNK_SIZE) || grid x y (z + 1) == -1 || grid x y (z + 1) == -2) ||
  (decide (x = 0) || grid (x - 1) y z == -1 || grid (x - 1) y z == -2) ||
  (decide ((x : ℤ) + 1 ≥ CHUNK_SIZE) || grid (x + 1) y z == -1 || grid (x + 1) y z == -2)

/-- The visible-block set emitted by `generateChunk`'s render pass: for each
local column, every non-air cell up to the column height that passes
`isExposed`. -/
def visibleBlocks (p : TerrainParams) (cx cz : ℤ) : List (ℕ × ℕ × ℕ) :=
  (List.range 16).flatMap fun x =>
    (List.range 16).flatMap fun z =>
      let height := heightAt p ((cx * CHUNK_SIZE + x : ℤ) : ℚ) ((cz * CHUNK_SIZE + z : ℤ) : ℚ)
      (List.range (height + 1).toNat).filterMap fun y =>
        if blockGrid p cx cz x y z ≠ -1 ∧ isExposed (blockGrid p cx cz) x y z then
          some (x, y, z)
        else none

/-- The exposure predicate of the spec (claim C8): at least one of the six
face-neighbors is air, water, or out of the grid bounds. -/
def exposedToAirWaterOrBoundary (grid : ℕ → ℕ → ℕ → ℤ) (x y z : ℕ) : Prop :=
  ((y : ℤ) + 1 ≥ MAX_HEIGHT ∨ grid x (y + 1) z = -1 ∨ grid x (y + 1) z = -2) ∨
  (y = 0 ∨ grid x (y - 1) z = -1 ∨ grid x (y - 1) z = -2) ∨
  (z = 0 ∨ grid x y (z - 1) = -1 ∨ grid x y (z - 1) = -2) ∨
  ((z : ℤ) + 1 ≥ CHUNK_SIZE ∨ grid x y (z + 1) = -1 ∨ grid x y (z + 1) = -2) ∨
  (x = 0 ∨ grid (x - 1) y z = -1 ∨ grid (x - 1) y z = -2) ∨
  ((x : ℤ) + 1 ≥ CHUNK_SIZE ∨ grid (x + 1) y z = -1 ∨ grid (x + 1) y z = -2)

/-- Terrain oracles giving constant column height 0 everywhere (used as a
concrete instance: base 40 cancelled by detail -40, Forest biome, no caves). -/
def zeroHeightParams : TerrainParams :=
  { useFlatTerrain := false
    mainNoise := fun _ _ => -1
    detailNoise := fun _ _ => -4
    mountainNoise := fun _ _ => 0
    biomeNoise := fun _ _ => 0
    caveNoise := fun _ _ _ => 0 }

/-! ### Chunk cache & streaming controller state machine -/

abbrev ChunkKey := ℤ × ℤ

/-- The per-chunk render state the controller mutates: the THREE.Group's
`visible` flag. -/
structure ChunkRec where
  visible : Bool
  deriving DecidableEq

/-- A closure pushed onto `chunkQueue` by `enqueueChunk`: either a generation
closure (coordinate was uncached at enqueue time) or a touch closure
(coordinate was cached: flip visibility and refresh the timestamp). -/
inductive ChunkTask
  | gen (k : ChunkKey)
  | touch (k : ChunkKey)
  deriving DecidableEq

def ChunkTask.key : ChunkTask → ChunkKey
  | .gen k => k
  | .touch k => k

/-- Controller state: the module-level mutable bindings of the chunk manager.
`sceneKeys` records which chunk subtrees are attached to the scene,
`disposedKeys` the dispose events of evicted chunks, `sentRequests` /
`answeredRequests` the worker channel traffic, `pendingKeys` the key set of
`pendingChunkRequests`, `now` a monotone `performance.now()` counter. -/
structure CState where
  chunks : List (ChunkKey × ChunkRec)
  chunkLastAccessed : List (ChunkKey × ℕ)
  visibleChunkKeys : List ChunkKey
  sceneKeys : List ChunkKey
  chunkQueue : List ChunkTask
  pendingKeys : List ChunkKey
  sentRequests : List ChunkKey
  answeredRequests : List ChunkKey
  disposedKeys : List ChunkKey
  workerOn : Bool
  lastChunk : Option ChunkKey
  renderDistance : ℤ
  now : ℕ
  deriving DecidableEq

/-- JavaScript `Map.get`. -/
def mapFind {α : Type} : List (ChunkKey × α) → ChunkKey → Option α
  | [], _ => none
  | (k, v) :: rest, k' => if k = k' then some v else mapFind rest k'

/-- JavaScript `Map.set`: replace in place, or append in insertion order. -/
def mapSet {α : Type} : List (ChunkKey × α) → ChunkKey → α → List (ChunkKey × α)
  | [], k, v => [(k, v)]
  | (k', v') :: rest, k, v =>
      if k' = k then (k, v) :: rest else (k', v') :: mapSet rest k v

/-- JavaScript `Map.delete`. -/
def mapDelete {α : Type} : List (ChunkKey × α) → ChunkKey → List (ChunkKey × α)
  | [], _ => []
  | (k', v') :: rest, k => if k' = k then rest else (k', v') :: mapDelete rest k

/-- JavaScript `Set.add` (no-op when present, else append). -/
def setAdd (s : List ChunkKey) (k : ChunkKey) : List ChunkKey :=
  if k ∈ s then s else s ++ [k]

/-- JavaScript `Set.delete`. -/
def setDelete (s : List ChunkKey) (k : ChunkKey) : List ChunkKey :=
  s.filter fun k' => decide (k' ≠ k)

/-- Function `getChunkCoord`: `Math.floor(coord / CHUNK_SIZE)`. -/
def getChunkCoord (coord : ℚ) : ℤ := ratFloor (coord / (CHUNK_SIZE : ℚ))

/-- The world-boundary test shared by `ensureChunkNow` and `enqueueChunk`. -/
def outOfWorld (cx cz : ℤ) : Bool :=
  decide (cx < WORLD_MIN) || decide (cx > WORLD_MAX) ||
  decide (cz < WORLD_MIN) || decide (cz > WORLD_MAX)

/-- Function `requestChunkFromWorker`: store the pending resolve/reject pair under the
coordinate key (`Map.set`: a later request for the same key overwrites the
earlier entry, leaving a single map entry) and post a `generateChunk` message
to the worker. -/
def requestChunkFromWorker (st : CState) (k : ChunkKey) : CState :=
  { st with
    pendingKeys := if k ∈ st.pendingKeys then st.pendingKeys else st.pendingKeys ++ [k]
    sentRequests := st.sentRequests ++ [k] }

/-- The realization steps shared by the synchronous-generation paths and the
worker-response continuation: make the chunk visible, attach it to the scene,
cache it, record the access time, and mark it visible. -/
def realizeChunkNow (st : CState) (k : ChunkKey) : CState :=
  { st with
    chunks := mapSet st.chunks k ⟨true⟩
    sceneKeys := setAdd st.sceneKeys k
    chunkLastAccessed := mapSet st.chunkLastAccessed k st.now
    visibleChunkKeys := setAdd st.visibleChunkKeys k
    now := st.now + 1 }

/-- The cached-chunk reuse steps: flip the cached group visible, record the
access time, mark visible. -/
def touchChunk (st : CState) (k : ChunkKey) (r : ChunkRec) : CState :=
  { st with
    chunks := mapSet st.chunks k { r with visible := true }
    chunkLastAccessed := mapSet st.chunkLastAccessed k st.now
    visibleChunkKeys := setAdd st.visibleChunkKeys k
    now := st.now + 1 }

/-- Function `ensureChunkNow(cx, cz)`: skip outside the world boundary; reuse a cached
chunk; otherwise generate — through the worker when it is initialized (the
`await` suspends the rest of the function until `workerResponse`), else
synchronously on the main thread. -/
def ensureChunkNow (st : CState) (cx cz : ℤ) : CState :=
  if outOfWorld cx cz then st
  else
    match mapFind st.chunks (cx, cz) with
    | some r => touchChunk st (cx, cz) r
    | none =>
      if st.workerOn then requestChunkFromWorker st (cx, cz)
      else realizeChunkNow st (cx, cz)

/-- Function `enqueueChunk(cx, cz)`: skip outside the world boundary; push a
generation closure when the coordinate is uncached, else a touch closure. -/
def enqueueChunk (st : CState) (cx cz : ℤ) : CState :=
  if outOfWorld cx cz then st
  else if (mapFind st.chunks (cx, cz)).isSome then
    { st with chunkQueue := st.chunkQueue ++ [ChunkTask.touch (cx, cz)] }
  else
    { st with chunkQueue := st.chunkQueue ++ [ChunkTask.gen (cx, cz)] }

/-- Execution of a dequeued closure.  A generation closure re-runs the
generation protocol unconditionally (it does not re-check the cache); a touch
closure flips the cached chunk visible. -/
def runTask (st : CState) : ChunkTask → CState
  | .gen k => if st.workerOn then requestChunkFromWorker st k else realizeChunkNow st k
  | .touch k =>
    match mapFind st.chunks k with
    | some r => touchChunk st k r
    | none => st

/-- Function `processChunkQueue(limit)`: pop and run up to `limit` closures. -/
def processChunkQueue : CState → ℕ → CState
  | st, 0 => st
  | st, Nat.succ limit =>
    match st.chunkQueue with
    | [] => st
    | t :: rest => processChunkQueue (runTask { st with chunkQueue := rest } t) limit

/-- The `chunkGenerated` message handler plus the continuation of whichever
`await requestChunkFromWorker` registered the pending entry: resolve and
delete the pending entry, then attach+cache+mark the chunk.  A response for a
coordinate with no pending entry is dropped. -/
def workerResponse (st : CState) (k : ChunkKey) : CState :=
  let st1 := { st with answeredRequests := st.answeredRequests ++ [k] }
  if k ∈ st1.pendingKeys then
    realizeChunkNow { st1 with pendingKeys := setDelete st1.pendingKeys k } k
  else st1

/-- Function `setRenderDistance`: update the render distance and invalidate the
last-chunk memo (`lastChunkX = lastChunkZ = Infinity`).  Note that it does
not touch `CHUNK_UNLOAD_DISTANCE`, which was fixed at module load. -/
def setRenderDistance (st : CState) (distance : ℤ) : CState :=
  { st with renderDistance := distance, lastChunk := none }

/-- Squared chunk-grid distance, as computed by `manageChunkCache`. -/
def distSq (a b : ChunkKey) : ℤ :=
  (a.1 - b.1) * (a.1 - b.1) + (a.2 - b.2) * (a.2 - b.2)

/-- Stable insertion step for the model of `Array.prototype.sort`. -/
def insortBy {α : Type} (le : α → α → Bool) (a : α) : List α → List α
  | [] => [a]
  | b :: l => if le a b then a :: b :: l else b :: insortBy le a l

/-- Stable sort (model of `Array.prototype.sort`, which is stable). -/
def sortBy {α : Type} (le : α → α → Bool) : List α → List α
  | [] => []
  | a :: l => insortBy le a (sortBy le l)

/-- Eviction of one chunk by `manageChunkCache`: detach from the scene,
dispose its render resources, and remove it from all three tracking
structures. -/
def evictChunk (st : CState) (k : ChunkKey) : CState :=
  { st with
    sceneKeys := setDelete st.sceneKeys k
    disposedKeys := st.disposedKeys ++ [k]
    chunks := mapDelete st.chunks k
    chunkLastAccessed := mapDelete st.chunkLastAccessed k
    visibleChunkKeys := setDelete st.visibleChunkKeys k }

/-- The eviction loop of `manageChunkCache` over the age-sorted entries:
stop once `chunksToRemove` chunks were removed; skip entries within the
unload distance of the player chunk; evict the rest (when still cached). -/
def evictLoop (pc : ChunkKey) (chunksToRemove : ℕ) :
    List (ChunkKey × ℕ) → ℕ → CState → CState
  | [], _, st => st
  | (k, _) :: rest, removed, st =>
    if removed ≥ chunksToRemove then st
    else if distSq k pc > CHUNK_UNLOAD_DISTANCE * CHUNK_UNLOAD_DISTANCE then
      if (mapFind st.chunks k).isSome then
        evictLoop pc chunksToRemove rest (removed + 1) (evictChunk st k)
      else evictLoop pc chunksToRemove rest removed st
    else evictLoop pc chunksToRemove rest removed st

/-- Function `manageChunkCache(playerChunkX, playerChunkZ)`: a no-op while the cache
is within `MAX_CACHED_CHUNKS`; otherwise sort the last-access map ascending
by timestamp and run the eviction loop for up to
`max(10, size - MAX_CACHED_CHUNKS)` removals. -/
def manageChunkCache (st : CState) (playerChunkX playerChunkZ : ℤ) : CState :=
  if st.chunks.length ≤ MAX_CACHED_CHUNKS then st
  else
    let sortedChunks := sortBy (fun a b => decide (a.2 ≤ b.2)) st.chunkLastAccessed
    let chunksToRemove := max 10 (st.chunks.length - MAX_CACHED_CHUNKS)
    evictLoop (playerChunkX, playerChunkZ) chunksToRemove sortedChunks 0 st

/-- Interval `[lo, hi]` as a list of integers, in order. -/
def intRange (lo hi : ℤ) : List ℤ :=
  (List.range (hi - lo + 1).toNat).map fun i => lo + (i : ℤ)

/-- The ring scan of `updateChunks`: all offsets within the squared render
distance, excluding the player chunk itself, kept only when the frustum test
accepts the chunk's bounding box (the frustum is an oracle fixed for the
update call).  Iteration order matches the source's nested `dx`/`dz` loops. -/
def ringCandidates (rd : ℤ) (c : ChunkKey) (frustum : ChunkKey → Bool) : List ChunkKey :=
  (intRange (-rd) rd).flatMap fun dx =>
    (intRange (-rd) rd).filterMap fun dz =>
      if dx * dx + dz * dz > rd * rd then none
      else
        if (c.1 + dx, c.2 + dz) = c then none
        else if frustum (c.1 + dx, c.2 + dz) then some (c.1 + dx, c.2 + dz)
        else none

/-- The `newVisible` set of `updateChunks`: the player chunk first, then the
accepted ring candidates (all distinct, so the JavaScript `Set` is just this
list). -/
def newVisibleList (rd : ℤ) (c : ChunkKey) (frustum : ChunkKey → Bool) : List ChunkKey :=
  c :: ringCandidates rd c frustum

/-- The hide loop of `updateChunks`: every previously visible key absent from
the new visible set has its cached group's `visible` flag set to `false`;
nothing is removed. -/
def hideMissing (oldVis newVis : List ChunkKey) (cache : List (ChunkKey × ChunkRec)) :
    List (ChunkKey × ChunkRec) :=
  cache.map fun kv =>
    if kv.1 ∈ oldVis ∧ kv.1 ∉ newVis then (kv.1, { kv.2 with visible := false }) else kv

/-- The body of `updateChunks` after the early-return guard, up to and
including the visible-set replacement (everything except the final
`manageChunkCache` call): memoize the player chunk, realize it immediately
(not through the queue), enqueue the accepted ring candidates, hide the
chunks that dropped out of visibility, and install the new visible set. -/
def updateChunksVisibility (st : CState) (frustum : ChunkKey → Bool) (c : ChunkKey) : CState :=
  let st1 : CState := { st with lastChunk := some c }
  let st2 := ensureChunkNow st1 c.1 c.2
  let newVis := newVisibleList st2.renderDistance c frustum
  let st3 := (ringCandidates st2.renderDistance c frustum).foldl
    (fun s k => enqueueChunk s k.1 k.2) st2
  let st4 := { st3 with chunks := hideMissing st3.visibleChunkKeys newVis st3.chunks }
  { st4 with visibleChunkKeys := newVis }

/-- Function `updateChunks(playerPosition)`: compute the player chunk coordinate,
return immediately when it is unchanged, else run the visibility body and
finish with `manageChunkCache`. -/
def updateChunks (st : CState) (frustum : ChunkKey → Bool) (px pz : ℚ) : CState :=
  let c : ChunkKey := (getChunkCoord px, getChunkCoord pz)
  if st.lastChunk = some c then st
  else
    let st' := updateChunksVisibility st frustum c
    manageChunkCache st' c.1 c.2

/-! ### Bulk pre-generation (`prerenderArea`) -/

/-- Array `townHallPositions`: four positions at fractional offsets of the world
size. -/
def townHallPositions : List (ℚ × ℚ) :=
  [ ((WORLD_MIN : ℚ) + (WORLD_SIZE : ℚ) * 0.25, (WORLD_MIN : ℚ) + (WORLD_SIZE : ℚ) * 0.25),
    ((WORLD_MIN : ℚ) + (WORLD_SIZE : ℚ) * 0.75, (WORLD_MIN : ℚ) + (WORLD_SIZE : ℚ) * 0.25),
    ((WORLD_MIN : ℚ) + (WORLD_SIZE : ℚ) * 0.25, (WORLD_MIN : ℚ) + (WORLD_SIZE : ℚ) * 0.75),
    ((WORLD_MIN : ℚ) + (WORLD_SIZE : ℚ) * 0.75, (WORLD_MIN : ℚ) + (WORLD_SIZE : ℚ) * 0.75) ]

/-- The town-hall seeding loop of `prerenderArea`: each in-bounds town hall
chunk is pushed with sort key `-1000 + index`, prioritizing it over every
spiral entry. -/
def townHallChunkEntries : List (ChunkKey × ℤ) :=
  townHallPositions.enum.filterMap fun p =>
    if ratFloor (p.2.1 / (CHUNK_SIZE : ℚ)) ≥ WORLD_MIN ∧
        ratFloor (p.2.1 / (CHUNK_SIZE : ℚ)) ≤ WORLD_MAX ∧
        ratFloor (p.2.2 / (CHUNK_SIZE : ℚ)) ≥ WORLD_MIN ∧
        ratFloor (p.2.2 / (CHUNK_SIZE : ℚ)) ≤ WORLD_MAX then
      some ((ratFloor (p.2.1 / (CHUNK_SIZE : ℚ)), ratFloor (p.2.2 / (CHUNK_SIZE : ℚ))),
        -1000 + (p.1 : ℤ))
    else none

/-- The ring construction of `prerenderArea`: for each radius `r`, the
perimeter of the square of Chebyshev radius `r` around the center (the
center itself for `r = 0`, pushed without a bounds check, as in the source),
each entry keyed by its squared Euclidean offset, skipping out-of-world
coordinates. -/
def spiralEntries (centerChunkX centerChunkZ : ℤ) (radius : ℕ) : List (ChunkKey × ℤ) :=
  (List.range (radius + 1)).flatMap fun r =>
    if r = 0 then [((centerChunkX, centerChunkZ), 0)]
    else
      (intRange (-(r : ℤ)) (r : ℤ)).flatMap fun dx =>
        (intRange (-(r : ℤ)) (r : ℤ)).filterMap fun dz =>
          if dx.natAbs = r ∨ dz.natAbs = r then
            if outOfWorld (centerChunkX + dx) (centerChunkZ + dz) then none
            else some ((centerChunkX + dx, centerChunkZ + dz), dx * dx + dz * dz)
          else none

/-- The full generation order of `prerenderArea`: town-hall entries plus
spiral entries, sorted stably by ascending key. -/
def prerenderPositions (centerChunkX centerChunkZ : ℤ) (radius : ℕ) : List (ChunkKey × ℤ) :=
  sortBy (fun a b => decide (a.2 ≤ b.2))
    (townHallChunkEntries ++ spiralEntries centerChunkX centerChunkZ radius)

/-- State of a running `prerenderArea` call: the controller state, the
remaining position queue, the progress counter, and whether the returned
promise has resolved. -/
structure PrerenderState where
  ctrl : CState
  positions : List (ChunkKey × ℤ)
  loadedChunks : ℕ
  resolved : Bool

def prerenderStart (st : CState) (centerX centerZ : ℚ) (radius : ℕ) : PrerenderState :=
  { ctrl := st
    positions := prerenderPositions (getChunkCoord centerX) (getChunkCoord centerZ) radius
    loadedChunks := 0
    resolved := false }

/-- Inner `while` loop of `generateNextBatch`: shift and `ensureChunkNow` (not
awaited) up to `maxPerFrame` positions. -/
def prerenderBatch : ℕ → PrerenderState → PrerenderState
  | 0, p => p
  | Nat.succ n, p =>
    match p.positions with
    | [] => p
    | (k, _) :: rest =>
      prerenderBatch n
        { ctrl := ensureChunkNow p.ctrl k.1 k.2
          positions := rest
          loadedChunks := p.loadedChunks + 1
          resolved := p.resolved }

/-- One animation frame of `prerenderArea`: run the batch loop, then resolve
the promise when the queue has drained (else schedule another frame). -/
def generateNextBatch (maxPerFrame : ℕ) (p : PrerenderState) : PrerenderState :=
  let q := prerenderBatch maxPerFrame p
  if q.positions = [] then { q with resolved := true } else q

/-- Run of `n` chained animation frames of `prerenderArea`. -/
def prerenderFrames (maxPerFrame : ℕ) : ℕ → PrerenderState → PrerenderState
  | 0, p => p
  | Nat.succ n, p => prerenderFrames maxPerFrame n (generateNextBatch maxPerFrame p)

/-! ### Concrete states for witnesses and counterexamples -/

/-- The controller state right after module load (empty maps, initial render
distance), with the worker channel either initialized or not. -/
def freshState (worker : Bool) : CState :=
  { chunks := []
    chunkLastAccessed := []
    visibleChunkKeys := []
    sceneKeys := []
    chunkQueue := []
    pendingKeys := []
    sentRequests := []
    answeredRequests := []
    disposedKeys := []
    workerOn := worker
    lastChunk := none
    renderDistance := initialRenderDistance
    now := 0 }

/-- Two enqueue-then-drain rounds for coordinate (5,5) with the worker
active and no response in between: the trace of two visibility passes both
wanting (5,5). -/
def duplicateRequestTrace : CState :=
  processChunkQueue (enqueueChunk (processChunkQueue (enqueueChunk (freshState true) 5 5) 1) 5 5) 1

/-- A 101-entry cache: chunk (10,0) is the oldest entry, and 100 further
chunks sit on the row z = 20.  All coordinates are inside the world. -/
def lruCache : List (ChunkKey × ChunkRec) :=
  ((10, 0), ⟨true⟩) :: (List.range 100).map fun j => (((j : ℤ) - 50, 20), ⟨true⟩)

def lruTimes : List (ChunkKey × ℕ) :=
  ((10, 0), 0) :: (List.range 100).map fun (j : ℕ) =>
    ((((j : ℤ) - 50, 20) : ChunkKey), j + 1)

/-- The over-full controller state used against the eviction claim, after a
runtime `setRenderDistance(20)`. -/
def lruState : CState :=
  setRenderDistance { freshState false with chunks := lruCache, chunkLastAccessed := lruTimes } 20

/-- A full `prerenderArea` run with the worker active: center (0,0), radius
0, 4 chunks per frame, two animation frames — enough to drain the queue (4
town-hall chunks plus the center). -/
def prerenderWorkerTrace : PrerenderState :=
  prerenderFrames 4 2 (prerenderStart (freshState true) 0 0 0)

/-- A one-chunk state: (5,5) cached, attached, and visible. -/
def oneChunkState : CState :=
  { freshState false with
    chunks := [((5, 5), ⟨true⟩)]
    chunkLastAccessed := [((5, 5), 0)]
    visibleChunkKeys := [(5, 5)]
    sceneKeys := [(5, 5)]
    now := 1 }

/-! ## Theorems -/

theorem ratFloor_eq_floor (q : ℚ) : ratFloor q = ⌊q⌋ := by
  rw [ratFloor, Int.fdiv_eq_ediv _ (by exact_mod_cast q.den_pos.le)]
  rw [Rat.floor_def]

/-- C3 counterexample: a biome-noise sample of exactly -0.5 is classified
`Plains`, not `Desert` — the `< -0.5` comparison of the source is strict, so
the boundary value falls through to the `< 0` branch.  This refutes the claim
that at the exact boundary value -0.5 the position is classified Desert. -/
theorem getBiomeAt_boundary_minus_half_is_plains :
    getBiomeAt (fun _ _ => -0.5) 0 0 = BiomeType.Plains ∧
    getBiomeAt (fun _ _ => -0.5) 0 0 ≠ BiomeType.Desert := by
  constructor
  · decide
  · decide

/-- C3 (amended): biome classification partitions the biome-noise sample
(taken at 1/200 scale) by strict thresholds: below -0.5 gives Desert, in
[-0.5, 0) Plains, in [0, 0.5) Forest, and at least 0.5 Mountains; every
boundary value belongs to the higher biome, so -0.5 is Plains, 0 is Forest,
and 0.5 is Mountains. -/
theorem getBiomeAt_threshold_partition (biomeNoise : ℚ → ℚ → ℚ) (x z : ℚ) :
    (biomeNoise (x / 200) (z / 200) < -0.5 →
      getBiomeAt biomeNoise x z = BiomeType.Desert) ∧
    (-0.5 ≤ biomeNoise (x / 200) (z / 200) → biomeNoise (x / 200) (z / 200) < 0 →
      getBiomeAt biomeNoise x z = BiomeType.Plains) ∧
    (0 ≤ biomeNoise (x / 200) (z / 200) → biomeNoise (x / 200) (z / 200) < 0.5 →
      getBiomeAt biomeNoise x z = BiomeType.Forest) ∧
    (0.5 ≤ biomeNoise (x / 200) (z / 200) →
      getBiomeAt biomeNoise x z = BiomeType.Mountains) := by
  unfold getBiomeAt
  refine ⟨fun h1 => ?_, fun h1 h2 => ?_, fun h1 h2 => ?_, fun h1 => ?_⟩
  · simp only [if_pos h1]
  · rw [if_neg (by exact not_lt.mpr h1), if_pos h2]
  · rw [if_neg (by exact not_lt.mpr (le_trans (by norm_num) h1)),
      if_neg (by exact not_lt.mpr h1), if_pos h2]
  · rw [if_neg (by exact not_lt.mpr (le_trans (by norm_num) h1)),
      if_neg (by exact not_lt.mpr (le_trans (by norm_num) h1)),
      if_neg (by exact not_lt.mpr h1)]

/-- Witness for C3 (amended) at concrete samples. -/
theorem getBiomeAt_threshold_partition_witness :
    getBiomeAt (fun _ _ => -1) 0 0 = BiomeType.Desert ∧
    getBiomeAt (fun _ _ => 0.5) 0 0 = BiomeType.Mountains :=
  ⟨(getBiomeAt_threshold_partition (fun _ _ => -1) 0 0).1 (by decide),
   (getBiomeAt_threshold_partition (fun _ _ => 0.5) 0 0).2.2.2 (by decide)⟩

/-- C7: the terrain height function of the source equals the reference
definition transcribed from the spec, for every flat-mode flag, every choice
of the four 2D noise oracles, and every position. -/
theorem getTerrainHeightAt_matches_spec (useFlatTerrain : Bool)
    (mainNoise detailNoise mountainNoise biomeNoise : ℚ → ℚ → ℚ) (x z : ℚ) :
    getTerrainHeightAt useFlatTerrain mainNoise detailNoise mountainNoise biomeNoise x z
      = terrainHeightSpec useFlatTerrain mainNoise detailNoise mountainNoise biomeNoise x z := by
  unfold getTerrainHeightAt terrainHeightSpec FLAT_TERRAIN_HEIGHT
  by_cases hf : useFlatTerrain
  · simp [hf]
  · simp only [if_neg hf]
    by_cases hm : getBiomeAt biomeNoise x z = BiomeType.Mountains
    · by_cases hmv : mountainNoise (x / 50) (z / 50) > 0.1
      · simp only [if_pos hm, if_pos hmv, if_pos (And.intro hm hmv)]
        have hd : getBiomeAt biomeNoise x z ≠ BiomeType.Desert := by
          rw [hm]; intro hcon; cases hcon
        simp only [if_neg hd]
        by_cases hc : mainNoise (x / 20) (z / 20) > 0.7
        · simp only [if_pos hc]
        · simp only [if_neg hc, add_zero]
      · simp only [if_pos hm, if_neg hmv]
        have hnot : ¬(getBiomeAt biomeNoise x z = BiomeType.Mountains ∧
            mountainNoise (x / 50) (z / 50) > 0.1) := fun hcon => hmv hcon.2
        simp only [if_neg hnot]
        have hd : getBiomeAt biomeNoise x z ≠ BiomeType.Desert := by
          rw [hm]; intro hcon; cases hcon
        simp only [if_neg hd, add_zero]
        by_cases hc : mainNoise (x / 20) (z / 20) > 0.7
        · simp only [if_pos hc]
        · simp only [if_neg hc, add_zero]
    · simp only [if_neg hm]
      have hnot : ¬(getBiomeAt biomeNoise x z = BiomeType.Mountains ∧
          mountainNoise (x / 50) (z / 50) > 0.1) := fun hcon => hm hcon.1
      simp only [if_neg hnot]
      by_cases hd : getBiomeAt biomeNoise x z = BiomeType.Desert
      · simp only [if_pos hd, add_zero]
        by_cases hc : mainNoise (x / 20) (z / 20) > 0.7
        · simp only [if_pos hc]
        · simp only [if_neg hc, add_zero]
      · simp only [if_neg hd, add_zero]
        by_cases hc : mainNoise (x / 20) (z / 20) > 0.7
        · simp only [if_pos hc]
        · simp only [if_neg hc, add_zero]

/-- The source's exposure test implies the spec's exposure predicate (the
source omits water below the block, which only strengthens the implication). -/
theorem isExposed_exposes (grid : ℕ → ℕ → ℕ → ℤ) (x y z : ℕ)
    (h : isExposed grid x y z = true) : exposedToAirWaterOrBoundary grid x y z := by
  unfold isExposed at h
  simp only [Bool.or_eq_true, decide_eq_true_eq, beq_iff_eq] at h
  unfold exposedToAirWaterOrBoundary
  tauto

/-- C8: every block emitted into the visible-block set by chunk generation is
solid (non-air) and satisfies the exposure predicate: at least one of its six
face-neighbors in the block grid is air, water, or out of bounds.  Hence no
fully interior block is ever emitted. -/
theorem visibleBlocks_exposed (p : TerrainParams) (cx cz : ℤ) (x y z : ℕ)
    (h : (x, y, z) ∈ visibleBlocks p cx cz) :
    blockGrid p cx cz x y z ≠ -1 ∧
    exposedToAirWaterOrBoundary (blockGrid p cx cz) x y z := by
  unfold visibleBlocks at h
  simp only [List.mem_flatMap, List.mem_filterMap, List.mem_range] at h
  obtain ⟨x', hx', z', hz', y', hy', hsome⟩ := h
  split at hsome
  · next hcond =>
    injection hsome with h1
    rw [Prod.mk.injEq, Prod.mk.injEq] at h1
    obtain ⟨rfl, rfl, rfl⟩ := h1
    exact ⟨hcond.1, isExposed_exposes _ _ _ _ hcond.2⟩
  · cases hsome

/-- Witness for C8: in the constant-height-0 world, the block at local
(0,0,0) of chunk (0,0) is emitted, and indeed solid and exposed. -/
theorem visibleBlocks_exposed_witness :
    blockGrid zeroHeightParams 0 0 0 0 0 ≠ -1 ∧
    exposedToAirWaterOrBoundary (blockGrid zeroHeightParams 0 0) 0 0 0 :=
  visibleBlocks_exposed zeroHeightParams 0 0 0 0 0 (by decide)

/-- C10: the world is silently clamped to chunk coordinates within
[WORLD_MIN, WORLD_MAX] = [-50, 50]: for any coordinate with either component
out of that interval, both the immediate-realization path (`ensureChunkNow`,
also used for the viewer's own chunk) and the enqueue path (`enqueueChunk`)
return with the controller state completely unchanged. -/
theorem world_boundary_paths_noop (st : CState) (cx cz : ℤ)
    (h : cx < WORLD_MIN ∨ cx > WORLD_MAX ∨ cz < WORLD_MIN ∨ cz > WORLD_MAX) :
    ensureChunkNow st cx cz = st ∧ enqueueChunk st cx cz = st ∧
    WORLD_MIN = -50 ∧ WORLD_MAX = 50 := by
  have hb : outOfWorld cx cz = true := by
    unfold outOfWorld
    rcases h with h | h | h | h <;> simp [h]
  refine ⟨?_, ?_, by decide, by decide⟩
  · unfold ensureChunkNow
    simp [hb]
  · unfold enqueueChunk
    simp [hb]

/-- Witness for C10 at the out-of-bounds coordinate (51, 0). -/
theorem world_boundary_paths_noop_witness :
    ensureChunkNow (freshState false) 51 0 = freshState false ∧
    enqueueChunk (freshState false) 51 0 = freshState false ∧
    WORLD_MIN = -50 ∧ WORLD_MAX = 50 :=
  world_boundary_paths_noop (freshState false) 51 0 (by decide)

/-- C1 counterexample: with the worker active, enqueue (5,5), drain one task
(issuing the first worker request), enqueue (5,5) again before any response,
and drain again: the second generation closure calls
`requestChunkFromWorker` while the first request is still unanswered, so two
requests have been posted for (5,5) with zero responses — refuting the claim
that a second request is never issued while the first is pending.  (Only the
pending-promise map stays at one entry, the second `Map.set` having
overwritten the first, whose promise is leaked.) -/
theorem duplicate_request_issued_counterexample :
    duplicateRequestTrace.sentRequests = [(5, 5), (5, 5)] ∧
    duplicateRequestTrace.answeredRequests = [] ∧
    duplicateRequestTrace.pendingKeys = [(5, 5)] := by
  refine ⟨by decide, by decide, by decide⟩

/-- C1 (amended): the only duplicate-suppression guard is the cache check —
for a coordinate that is already cached, `enqueueChunk` pushes only a touch
closure (never a generation closure) and `ensureChunkNow` posts no worker
request; the pending-request map always holds at most one entry per
coordinate (a later request overwrites the earlier); but for an uncached
coordinate a second worker request can be posted while the first is still
pending. -/
theorem cached_coordinate_never_rerequested (st : CState) (cx cz : ℤ)
    (h : (mapFind st.chunks (cx, cz)).isSome) :
    (enqueueChunk st cx cz).sentRequests = st.sentRequests ∧
    (∀ t ∈ (enqueueChunk st cx cz).chunkQueue,
      t ∈ st.chunkQueue ∨ t = ChunkTask.touch (cx, cz)) ∧
    (ensureChunkNow st cx cz).sentRequests = st.sentRequests := by
  obtain ⟨r, hr⟩ := Option.isSome_iff_exists.mp h
  by_cases hb : outOfWorld cx cz = true
  · refine ⟨by simp [enqueueChunk, hb], ?_, by simp [ensureChunkNow, hb]⟩
    intro t ht
    left
    simpa [enqueueChunk, hb] using ht
  · have hb' : outOfWorld cx cz = false := by
      simpa using hb
    refine ⟨by simp [enqueueChunk, hb', h], ?_, ?_⟩
    · intro t ht
      simp only [enqueueChunk, hb', Bool.false_eq_true, if_false, h, if_pos] at ht
      rcases List.mem_append.mp ht with hin | hin
      · exact Or.inl hin
      · exact Or.inr (List.mem_singleton.mp hin)
    · simp [ensureChunkNow, hb', hr, touchChunk]

/-- Witness for C1 (amended) on a state with (5,5) cached. -/
theorem cached_coordinate_never_rerequested_witness :
    (enqueueChunk oneChunkState 5 5).sentRequests = oneChunkState.sentRequests ∧
    (∀ t ∈ (enqueueChunk oneChunkState 5 5).chunkQueue,
      t ∈ oneChunkState.chunkQueue ∨ t = ChunkTask.touch (5, 5)) ∧
    (ensureChunkNow oneChunkState 5 5).sentRequests = oneChunkState.sentRequests :=
  cached_coordinate_never_rerequested oneChunkState 5 5 (by decide)

/-! ### Association-list map / set lemmas -/

theorem mapFind_mapSet_self {α : Type} (m : List (ChunkKey × α)) (k : ChunkKey) (v : α) :
    mapFind (mapSet m k v) k = some v := by
  induction m with
  | nil => simp [mapSet, mapFind]
  | cons kv rest ih =>
    obtain ⟨k', v'⟩ := kv
    by_cases hk : k' = k
    · simp [mapSet, mapFind, hk]
    · simp [mapSet, mapFind, hk, ih]

theorem mapFind_mapSet_ne {α : Type} (m : List (ChunkKey × α)) (k k' : ChunkKey) (v : α)
    (h : k' ≠ k) : mapFind (mapSet m k v) k' = mapFind m k' := by
  induction m with
  | nil => simp [mapSet, mapFind, Ne.symm h]
  | cons kv rest ih =>
    obtain ⟨k₀, v₀⟩ := kv
    by_cases h0 : k₀ = k
    · subst h0
      simp [mapSet, mapFind, Ne.symm h]
    · simp [mapSet, mapFind, h0, ih]

theorem mapFind_mapDelete_ne {α : Type} (m : List (ChunkKey × α)) (k k' : ChunkKey)
    (h : k' ≠ k) : mapFind (mapDelete m k) k' = mapFind m k' := by
  induction m with
  | nil => simp [mapDelete, mapFind]
  | cons kv rest ih =>
    obtain ⟨k₀, v₀⟩ := kv
    by_cases h0 : k₀ = k
    · subst h0
      simp [mapDelete, mapFind, Ne.symm h]
    · simp [mapDelete, mapFind, h0, ih]

theorem mem_setAdd (s : List ChunkKey) (k k' : ChunkKey) :
    k' ∈ setAdd s k ↔ k' ∈ s ∨ k' = k := by
  by_cases h : k ∈ s
  · unfold setAdd
    rw [if_pos h]
    constructor
    · exact Or.inl
    · rintro (hk | rfl)
      · exact hk
      · exact h
  · unfold setAdd
    rw [if_neg h]
    simp [List.mem_append]

theorem mem_setDelete (s : List ChunkKey) (k k' : ChunkKey) :
    k' ∈ setDelete s k ↔ k' ∈ s ∧ k' ≠ k := by
  simp [setDelete, List.mem_filter]

/-! ### Eviction-loop lemmas -/

theorem evictLoop_untouched (pc : ChunkKey) (n : ℕ) (l : List (ChunkKey × ℕ)) :
    ∀ (removed : ℕ) (st : CState),
    (evictLoop pc n l removed st).lastChunk = st.lastChunk ∧
    (evictLoop pc n l removed st).renderDistance = st.renderDistance ∧
    (evictLoop pc n l removed st).workerOn = st.workerOn ∧
    (evictLoop pc n l removed st).chunkQueue = st.chunkQueue ∧
    (evictLoop pc n l removed st).pendingKeys = st.pendingKeys ∧
    (evictLoop pc n l removed st).sentRequests = st.sentRequests ∧
    (evictLoop pc n l removed st).answeredRequests = st.answeredRequests := by
  induction l with
  | nil =>
    intro removed st
    simp [evictLoop]
  | cons kt rest ih =>
    intro removed st
    obtain ⟨k, t⟩ := kt
    unfold evictLoop
    by_cases h1 : removed ≥ n
    · simp [h1]
    · simp only [if_neg h1]
      by_cases h2 : distSq k pc > CHUNK_UNLOAD_DISTANCE * CHUNK_UNLOAD_DISTANCE
      · simp only [if_pos h2]
        by_cases h3 : (mapFind st.chunks k).isSome
        · simp only [if_pos h3]
          simpa [evictChunk] using ih (removed + 1) (evictChunk st k)
        · simp only [if_neg h3]
          exact ih removed st
      · simp only [if_neg h2]
        exact ih removed st

theorem evictLoop_preserves_near (pc : ChunkKey) (n : ℕ) (l : List (ChunkKey × ℕ))
    (k : ChunkKey) (hk : distSq k pc ≤ CHUNK_UNLOAD_DISTANCE * CHUNK_UNLOAD_DISTANCE) :
    ∀ (removed : ℕ) (st : CState),
    mapFind (evictLoop pc n l removed st).chunks k = mapFind st.chunks k ∧
    (k ∈ (evictLoop pc n l removed st).sceneKeys ↔ k ∈ st.sceneKeys) ∧
    (k ∈ (evictLoop pc n l removed st).visibleChunkKeys ↔ k ∈ st.visibleChunkKeys) := by
  induction l with
  | nil =>
    intro removed st
    simp [evictLoop]
  | cons kt rest ih =>
    intro removed st
    obtain ⟨k₀, t⟩ := kt
    unfold evictLoop
    by_cases h1 : removed ≥ n
    · simp [h1]
    · simp only [if_neg h1]
      by_cases h2 : distSq k₀ pc > CHUNK_UNLOAD_DISTANCE * CHUNK_UNLOAD_DISTANCE
      · simp only [if_pos h2]
        by_cases h3 : (mapFind st.chunks k₀).isSome
        · simp only [if_pos h3]
          have hne : k ≠ k₀ := by
            intro heq
            rw [heq] at hk
            exact absurd h2 (not_lt.mpr hk)
          obtain ⟨ih1, ih2, ih3⟩ := ih (removed + 1) (evictChunk st k₀)
          refine ⟨?_, ?_, ?_⟩
          · rw [ih1]
            simp only [evictChunk]
            exact mapFind_mapDelete_ne _ _ _ hne
          · rw [ih2]
            simp only [evictChunk]
            rw [mem_setDelete]
            exact and_iff_left hne
          · rw [ih3]
            simp only [evictChunk]
            rw [mem_setDelete]
            exact and_iff_left hne
        · simp only [if_neg h3]
          exact ih removed st
      · simp only [if_neg h2]
        exact ih removed st

theorem evictLoop_disposed (pc : ChunkKey) (n : ℕ) (l : List (ChunkKey × ℕ)) :
    ∀ (removed : ℕ) (st : CState) (k' : ChunkKey),
    k' ∈ (evictLoop pc n l removed st).disposedKeys →
    k' ∈ st.disposedKeys ∨
      distSq k' pc > CHUNK_UNLOAD_DISTANCE * CHUNK_UNLOAD_DISTANCE := by
  induction l with
  | nil =>
    intro removed st k' h
    rw [evictLoop] at h
    exact Or.inl h
  | cons kt rest ih =>
    intro removed st k' h
    obtain ⟨k₀, t⟩ := kt
    rw [evictLoop] at h
    by_cases h1 : removed ≥ n
    · rw [if_pos h1] at h
      exact Or.inl h
    · rw [if_neg h1] at h
      by_cases h2 : distSq k₀ pc > CHUNK_UNLOAD_DISTANCE * CHUNK_UNLOAD_DISTANCE
      · rw [if_pos h2] at h
        by_cases h3 : (mapFind st.chunks k₀).isSome
        · rw [if_pos h3] at h
          rcases ih (removed + 1) (evictChunk st k₀) k' h with hin | hfar
          · simp only [evictChunk, List.mem_append, List.mem_singleton] at hin
            rcases hin with hin | rfl
            · exact Or.inl hin
            · exact Or.inr h2
          · exact Or.inr hfar
        · rw [if_neg h3] at h
          exact ih removed st k' h
      · rw [if_neg h2] at h
        exact ih removed st k' h

/-- C4 counterexample: after a runtime `setRenderDistance(20)` the claimed
unload distance would be 25, yet the oldest cached chunk (10,0) — at chunk
distance 10 from the viewer at (0,0), well within 25 — is evicted by
`manageChunkCache`, because the actual `CHUNK_UNLOAD_DISTANCE` constant was
frozen at module load as `3 + 5 = 8`. -/
theorem eviction_ignores_runtime_render_distance_counterexample :
    lruState.renderDistance = 20 ∧
    distSq (10, 0) (0, 0) ≤ (lruState.renderDistance + 5) * (lruState.renderDistance + 5) ∧
    (mapFind lruState.chunks (10, 0)).isSome = true ∧
    mapFind (manageChunkCache lruState 0 0).chunks (10, 0) = none := by
  refine ⟨by decide, by decide, by decide, by decide⟩

/-- C4 (amended): eviction runs only when the cached-chunk count exceeds
`MAX_CACHED_CHUNKS`; it sorts by last-access time ascending and removes up
to `max(10, count - 100)` of the oldest entries, but only entries farther
from the viewer chunk than `CHUNK_UNLOAD_DISTANCE` — which is the constant
`initial render distance (3) + 5 = 8`, frozen at module load and *not*
updated by runtime render-distance changes.  Every cached chunk within that
fixed distance of the viewer survives eviction untouched, regardless of age,
and every disposed chunk was farther away than that distance. -/
theorem manageChunkCache_spares_nearby_chunks (st : CState) (pcx pcz : ℤ) (k : ChunkKey)
    (hnear : distSq k (pcx, pcz) ≤ CHUNK_UNLOAD_DISTANCE * CHUNK_UNLOAD_DISTANCE) :
    (st.chunks.length ≤ MAX_CACHED_CHUNKS → manageChunkCache st pcx pcz = st) ∧
    mapFind (manageChunkCache st pcx pcz).chunks k = mapFind st.chunks k ∧
    (∀ k' ∈ (manageChunkCache st pcx pcz).disposedKeys,
      k' ∈ st.disposedKeys ∨
        distSq k' (pcx, pcz) > CHUNK_UNLOAD_DISTANCE * CHUNK_UNLOAD_DISTANCE) := by
  refine ⟨?_, ?_, ?_⟩
  · intro hle
    unfold manageChunkCache
    rw [if_pos hle]
  · unfold manageChunkCache
    by_cases hle : st.chunks.length ≤ MAX_CACHED_CHUNKS
    · rw [if_pos hle]
    · rw [if_neg hle]
      exact (evictLoop_preserves_near (pcx, pcz) _ _ k hnear 0 st).1
  · unfold manageChunkCache
    by_cases hle : st.chunks.length ≤ MAX_CACHED_CHUNKS
    · rw [if_pos hle]
      intro k' hk'
      exact Or.inl hk'
    · rw [if_neg hle]
      intro k' hk'
      exact evictLoop_disposed (pcx, pcz) _ _ 0 st k' hk'

/-- Witness for C4 (amended): the chunk at (5,5), at squared distance 50 ≤ 64
from the viewer chunk (0,0), is spared on a small state. -/
theorem manageChunkCache_spares_nearby_chunks_witness :
    (oneChunkState.chunks.length ≤ MAX_CACHED_CHUNKS →
      manageChunkCache oneChunkState 0 0 = oneChunkState) ∧
    mapFind (manageChunkCache oneChunkState 0 0).chunks (5, 5) =
      mapFind oneChunkState.chunks (5, 5) ∧
    (∀ k' ∈ (manageChunkCache oneChunkState 0 0).disposedKeys,
      k' ∈ oneChunkState.disposedKeys ∨
        distSq k' (0, 0) > CHUNK_UNLOAD_DISTANCE * CHUNK_UNLOAD_DISTANCE) :=
  manageChunkCache_spares_nearby_chunks oneChunkState 0 0 (5, 5) (by decide)

/-! ### Controller phase lemmas -/

theorem chunkRec_set_visible (r : ChunkRec) (b : Bool) : { r with visible := b } = ⟨b⟩ := rfl

theorem ensureChunkNow_untouched (st : CState) (cx cz : ℤ) :
    (ensureChunkNow st cx cz).lastChunk = st.lastChunk ∧
    (ensureChunkNow st cx cz).renderDistance = st.renderDistance ∧
    (ensureChunkNow st cx cz).workerOn = st.workerOn ∧
    (ensureChunkNow st cx cz).chunkQueue = st.chunkQueue ∧
    (ensureChunkNow st cx cz).disposedKeys = st.disposedKeys := by
  unfold ensureChunkNow
  by_cases hb : outOfWorld cx cz = true
  · simp [hb]
  · rw [if_neg (by simp [hb])]
    cases hfind : mapFind st.chunks (cx, cz) with
    | some r => simp [touchChunk]
    | none =>
      by_cases hw : st.workerOn = true <;>
        simp [hw, requestChunkFromWorker, realizeChunkNow]

theorem ensureChunkNow_cache_other (st : CState) (cx cz : ℤ) (k : ChunkKey)
    (hne : k ≠ (cx, cz)) :
    mapFind (ensureChunkNow st cx cz).chunks k = mapFind st.chunks k := by
  unfold ensureChunkNow
  by_cases hb : outOfWorld cx cz = true
  · simp [hb]
  · rw [if_neg (by simp [hb])]
    cases hfind : mapFind st.chunks (cx, cz) with
    | some r =>
      simp only [touchChunk]
      exact mapFind_mapSet_ne _ _ _ _ hne
    | none =>
      by_cases hw : st.workerOn = true
      · simp [hw, requestChunkFromWorker]
      · simp only [hw, Bool.false_eq_true, if_false, realizeChunkNow]
        exact mapFind_mapSet_ne _ _ _ _ hne

theorem ensureChunkNow_cache_mono (st : CState) (cx cz : ℤ) (k : ChunkKey)
    (h : (mapFind st.chunks k).isSome = true) :
    (mapFind (ensureChunkNow st cx cz).chunks k).isSome = true := by
  by_cases hk : k = (cx, cz)
  · unfold ensureChunkNow
    by_cases hb : outOfWorld cx cz = true
    · simp [hb, h]
    · rw [if_neg (by simp [hb])]
      cases hfind : mapFind st.chunks (cx, cz) with
      | some r =>
        simp only [touchChunk]
        rw [hk, mapFind_mapSet_self]
        rfl
      | none =>
        rw [hk, hfind] at h
        cases h
  · rw [ensureChunkNow_cache_other st cx cz k hk]
    exact h

theorem ensureChunkNow_visible_mono (st : CState) (cx cz : ℤ) (k : ChunkKey)
    (h : k ∈ st.visibleChunkKeys) :
    k ∈ (ensureChunkNow st cx cz).visibleChunkKeys := by
  unfold ensureChunkNow
  by_cases hb : outOfWorld cx cz = true
  · simpa [hb] using h
  · rw [if_neg (by simp [hb])]
    cases hfind : mapFind st.chunks (cx, cz) with
    | some r =>
      simp only [touchChunk]
      exact (mem_setAdd _ _ _).mpr (Or.inl h)
    | none =>
      by_cases hw : st.workerOn = true
      · simpa [hw, requestChunkFromWorker] using h
      · simp only [hw, Bool.false_eq_true, if_false, realizeChunkNow]
        exact (mem_setAdd _ _ _).mpr (Or.inl h)

theorem ensureChunkNow_scene_mono (st : CState) (cx cz : ℤ) (k : ChunkKey)
    (h : k ∈ st.sceneKeys) :
    k ∈ (ensureChunkNow st cx cz).sceneKeys := by
  unfold ensureChunkNow
  by_cases hb : outOfWorld cx cz = true
  · simpa [hb] using h
  · rw [if_neg (by simp [hb])]
    cases hfind : mapFind st.chunks (cx, cz) with
    | some r => simpa [touchChunk] using h
    | none =>
      by_cases hw : st.workerOn = true
      · simpa [hw, requestChunkFromWorker] using h
      · simp only [hw, Bool.false_eq_true, if_false, realizeChunkNow]
        exact (mem_setAdd _ _ _).mpr (Or.inl h)

theorem ensureChunkNow_sync_realizes (st : CState) (cx cz : ℤ)
    (hw : st.workerOn = false) (hb : outOfWorld cx cz = false) :
    mapFind (ensureChunkNow st cx cz).chunks (cx, cz) = some ⟨true⟩ ∧
    (cx, cz) ∈ (ensureChunkNow st cx cz).visibleChunkKeys ∧
    (((cx, cz) : ChunkKey) ∈ st.sceneKeys ∨ mapFind st.chunks (cx, cz) = none →
      (cx, cz) ∈ (ensureChunkNow st cx cz).sceneKeys) := by
  unfold ensureChunkNow
  rw [if_neg (by simp [hb])]
  cases hfind : mapFind st.chunks (cx, cz) with
  | some r =>
    simp only [touchChunk, chunkRec_set_visible]
    refine ⟨mapFind_mapSet_self _ _ _, (mem_setAdd _ _ _).mpr (Or.inr rfl), ?_⟩
    rintro (hs | hnone)
    · exact hs
    · exact (Option.some_ne_none r hnone).elim
  | none =>
    rw [hw]
    simp only [Bool.false_eq_true, if_false, realizeChunkNow]
    exact ⟨mapFind_mapSet_self _ _ _, (mem_setAdd _ _ _).mpr (Or.inr rfl),
      fun _ => (mem_setAdd _ _ _).mpr (Or.inr rfl)⟩

theorem enqueueChunk_eq (st : CState) (cx cz : ℤ) :
    ∃ ts : List ChunkTask,
      enqueueChunk st cx cz = { st with chunkQueue := st.chunkQueue ++ ts } ∧
      ∀ t ∈ ts, t.key = (cx, cz) := by
  unfold enqueueChunk
  by_cases hb : outOfWorld cx cz = true
  · exact ⟨[], by simp [hb], by simp⟩
  · rw [if_neg (by simp [hb])]
    by_cases hc : (mapFind st.chunks (cx, cz)).isSome = true
    · exact ⟨[ChunkTask.touch (cx, cz)], by simp [hc], by simp [ChunkTask.key]⟩
    · exact ⟨[ChunkTask.gen (cx, cz)], by simp [hc], by simp [ChunkTask.key]⟩

theorem enqueueFold_eq (ks : List ChunkKey) : ∀ st : CState,
    ∃ ts : List ChunkTask,
      ks.foldl (fun s k => enqueueChunk s k.1 k.2) st
        = { st with chunkQueue := st.chunkQueue ++ ts } ∧
      ∀ t ∈ ts, t.key ∈ ks := by
  induction ks with
  | nil =>
    intro st
    exact ⟨[], by simp, by simp⟩
  | cons k rest ih =>
    intro st
    obtain ⟨ts1, h1, h1k⟩ := enqueueChunk_eq st k.1 k.2
    obtain ⟨ts2, h2, h2k⟩ := ih (enqueueChunk st k.1 k.2)
    refine ⟨ts1 ++ ts2, ?_, ?_⟩
    · rw [List.foldl_cons, h2, h1]
      simp
    · intro t ht
      rcases List.mem_append.mp ht with hin | hin
      · rw [h1k t hin]
        simp
      · exact List.mem_cons_of_mem _ (h2k t hin)

theorem ringCandidates_ne_center (rd : ℤ) (c : ChunkKey) (f : ChunkKey → Bool) :
    ∀ k ∈ ringCandidates rd c f, k ≠ c := by
  intro k hk
  unfold ringCandidates at hk
  simp only [List.mem_flatMap, List.mem_filterMap] at hk
  obtain ⟨dx, -, dz, -, hsome⟩ := hk
  by_cases h1 : dx * dx + dz * dz > rd * rd
  · rw [if_pos h1] at hsome
    cases hsome
  · rw [if_neg h1] at hsome
    by_cases h2 : ((c.1 + dx, c.2 + dz) : ChunkKey) = c
    · rw [if_pos h2] at hsome
      cases hsome
    · rw [if_neg h2] at hsome
      by_cases h3 : f (c.1 + dx, c.2 + dz) = true
      · rw [if_pos h3] at hsome
        injection hsome with h4
        rw [← h4]
        exact h2
      · rw [if_neg (by simp [h3])] at hsome
        cases hsome

theorem mapFind_hideMissing (oldVis newVis : List ChunkKey)
    (cache : List (ChunkKey × ChunkRec)) (k : ChunkKey) :
    mapFind (hideMissing oldVis newVis cache) k
      = (mapFind cache k).map fun r => if k ∈ oldVis ∧ k ∉ newVis then ⟨false⟩ else r := by
  induction cache with
  | nil => simp [hideMissing, mapFind]
  | cons kv rest ih =>
    obtain ⟨k₀, r₀⟩ := kv
    simp only [hideMissing, List.map_cons] at ih ⊢
    by_cases hcond : k₀ ∈ oldVis ∧ k₀ ∉ newVis
    · rw [if_pos hcond]
      by_cases hk : k₀ = k
      · subst hk
        simp [mapFind, hcond]
      · simp [mapFind, hk, ih]
    · rw [if_neg hcond]
      by_cases hk : k₀ = k
      · subst hk
        simp [mapFind, hcond]
      · simp [mapFind, hk, ih]

theorem manageChunkCache_lastChunk (st : CState) (a b : ℤ) :
    (manageChunkCache st a b).lastChunk = st.lastChunk := by
  unfold manageChunkCache
  by_cases hle : st.chunks.length ≤ MAX_CACHED_CHUNKS
  · rw [if_pos hle]
  · rw [if_neg hle]
    exact (evictLoop_untouched _ _ _ 0 st).1

theorem manageChunkCache_queue (st : CState) (a b : ℤ) :
    (manageChunkCache st a b).chunkQueue = st.chunkQueue := by
  unfold manageChunkCache
  by_cases hle : st.chunks.length ≤ MAX_CACHED_CHUNKS
  · rw [if_pos hle]
  · rw [if_neg hle]
    exact (evictLoop_untouched _ _ _ 0 st).2.2.2.1

theorem updateChunksVisibility_lastChunk (st : CState) (f : ChunkKey → Bool) (c : ChunkKey) :
    (updateChunksVisibility st f c).lastChunk = some c := by
  simp only [updateChunksVisibility]
  obtain ⟨ts, hfold, -⟩ :=
    enqueueFold_eq
      (ringCandidates (ensureChunkNow { st with lastChunk := some c } c.1 c.2).renderDistance c f)
      (ensureChunkNow { st with lastChunk := some c } c.1 c.2)
  rw [hfold]
  have h := (ensureChunkNow_untouched { st with lastChunk := some c } c.1 c.2).1
  simpa using h

theorem updateChunks_lastChunk (st : CState) (f : ChunkKey → Bool) (px pz : ℚ) :
    (updateChunks st f px pz).lastChunk = some (getChunkCoord px, getChunkCoord pz) := by
  unfold updateChunks
  by_cases hsame : st.lastChunk = some ((getChunkCoord px, getChunkCoord pz) : ChunkKey)
  · rw [if_pos hsame]
    exact hsame
  · rw [if_neg hsame, manageChunkCache_lastChunk, updateChunksVisibility_lastChunk]

theorem updateChunks_noop_on_memo (st : CState) (f : ChunkKey → Bool) (px pz : ℚ)
    (h : st.lastChunk = some ((getChunkCoord px, getChunkCoord pz) : ChunkKey)) :
    updateChunks st f px pz = st := by
  unfold updateChunks
  rw [if_pos h]

/-- C5: the streaming update is idempotent with respect to an unchanged
viewer chunk: after any `updateChunks` call, a second call whose position
maps to the same viewer chunk coordinate returns the state completely
unchanged — no generation, no enqueueing, no cache, visible-set or
timestamp mutation. -/
theorem updateChunks_idempotent_on_same_chunk (st : CState) (f f' : ChunkKey → Bool)
    (px pz px' pz' : ℚ)
    (h1 : getChunkCoord px' = getChunkCoord px) (h2 : getChunkCoord pz' = getChunkCoord pz) :
    updateChunks (updateChunks st f px pz) f' px' pz' = updateChunks st f px pz := by
  apply updateChunks_noop_on_memo
  rw [h1, h2]
  exact updateChunks_lastChunk st f px pz

/-- Witness for C5: moving from position (0,0) to (1,1) stays in chunk (0,0),
so the second update is a strict no-op. -/
theorem updateChunks_idempotent_on_same_chunk_witness :
    updateChunks (updateChunks (freshState false) (fun _ => false) 0 0) (fun _ => true) 1 1
      = updateChunks (freshState false) (fun _ => false) 0 0 :=
  updateChunks_idempotent_on_same_chunk (freshState false) (fun _ => false) (fun _ => true)
    0 0 1 1 (by decide) (by decide)

theorem manageChunkCache_preserves_near (st : CState) (a b : ℤ) (k : ChunkKey)
    (hnear : distSq k (a, b) ≤ CHUNK_UNLOAD_DISTANCE * CHUNK_UNLOAD_DISTANCE) :
    mapFind (manageChunkCache st a b).chunks k = mapFind st.chunks k ∧
    (k ∈ (manageChunkCache st a b).sceneKeys ↔ k ∈ st.sceneKeys) ∧
    (k ∈ (manageChunkCache st a b).visibleChunkKeys ↔ k ∈ st.visibleChunkKeys) := by
  unfold manageChunkCache
  by_cases hle : st.chunks.length ≤ MAX_CACHED_CHUNKS
  · rw [if_pos hle]
    exact ⟨rfl, Iff.rfl, Iff.rfl⟩
  · rw [if_neg hle]
    exact evictLoop_preserves_near (a, b) _ _ k hnear 0 st

theorem updateChunksVisibility_parts (st : CState) (f : ChunkKey → Bool) (c : ChunkKey) :
    (updateChunksVisibility st f c).chunks
      = hideMissing (ensureChunkNow { st with lastChunk := some c } c.1 c.2).visibleChunkKeys
          (newVisibleList st.renderDistance c f)
          (ensureChunkNow { st with lastChunk := some c } c.1 c.2).chunks ∧
    (updateChunksVisibility st f c).sceneKeys
      = (ensureChunkNow { st with lastChunk := some c } c.1 c.2).sceneKeys ∧
    (updateChunksVisibility st f c).disposedKeys = st.disposedKeys ∧
    (updateChunksVisibility st f c).visibleChunkKeys = newVisibleList st.renderDistance c f ∧
    (∀ t ∈ (updateChunksVisibility st f c).chunkQueue,
      t ∈ st.chunkQueue ∨ t.key ∈ ringCandidates st.renderDistance c f) := by
  have hrd : (ensureChunkNow { st with lastChunk := some c } c.1 c.2).renderDistance
      = st.renderDistance := by
    simpa using (ensureChunkNow_untouched { st with lastChunk := some c } c.1 c.2).2.1
  have hdk : (ensureChunkNow { st with lastChunk := some c } c.1 c.2).disposedKeys
      = st.disposedKeys := by
    simpa using (ensureChunkNow_untouched { st with lastChunk := some c } c.1 c.2).2.2.2.2
  have hqk : (ensureChunkNow { st with lastChunk := some c } c.1 c.2).chunkQueue
      = st.chunkQueue := by
    simpa using (ensureChunkNow_untouched { st with lastChunk := some c } c.1 c.2).2.2.2.1
  simp only [updateChunksVisibility]
  obtain ⟨ts, hfold, htk⟩ :=
    enqueueFold_eq
      (ringCandidates (ensureChunkNow { st with lastChunk := some c } c.1 c.2).renderDistance c f)
      (ensureChunkNow { st with lastChunk := some c } c.1 c.2)
  rw [hfold]
  rw [hrd] at htk
  refine ⟨by rw [hrd], rfl, hdk, by rw [hrd], ?_⟩
  intro t ht
  have ht' : t ∈ st.chunkQueue ++ ts := by
    rw [← hqk]
    exact ht
  rcases List.mem_append.mp ht' with hin | hin
  · exact Or.inl hin
  · exact Or.inr (htk t hin)

/-- Core of C6, for an arbitrary viewer chunk coordinate: the visibility
body of the update flips the hidden chunk's flag off and nothing else. -/
theorem visibility_hides_only (st : CState) (f : ChunkKey → Bool) (c : ChunkKey)
    (k : ChunkKey) (r : ChunkRec)
    (hvis : k ∈ st.visibleChunkKeys)
    (hnew : k ∉ newVisibleList st.renderDistance c f)
    (hcached : mapFind st.chunks k = some r) :
    mapFind (updateChunksVisibility st f c).chunks k = some ⟨false⟩ ∧
    (k ∈ st.sceneKeys → k ∈ (updateChunksVisibility st f c).sceneKeys) ∧
    (updateChunksVisibility st f c).disposedKeys = st.disposedKeys := by
  have hkc : k ≠ c := by
    intro heq
    apply hnew
    rw [heq]
    exact List.mem_cons_self _ _
  obtain ⟨hchunks, hscene, hdisp, hviskeys, hqueue⟩ := updateChunksVisibility_parts st f c
  refine ⟨?_, ?_, hdisp⟩
  · rw [hchunks, mapFind_hideMissing]
    have h2find : mapFind (ensureChunkNow { st with lastChunk := some c } c.1 c.2).chunks k
        = some r := by
      rw [ensureChunkNow_cache_other _ _ _ _ (show k ≠ (c.1, c.2) from hkc)]
      exact hcached
    have h2vis : k ∈ (ensureChunkNow { st with lastChunk := some c } c.1 c.2).visibleChunkKeys :=
      ensureChunkNow_visible_mono _ _ _ _ hvis
    rw [h2find]
    simp only [Option.map_some']
    rw [if_pos (And.intro h2vis hnew)]
  · intro hks
    rw [hscene]
    exact ensureChunkNow_scene_mono _ _ _ _ hks

/-- C6: a coordinate that was visible last frame but is absent from the new
visible set is only hidden by the update pass: its cache entry survives with
just the visibility flag flipped off, it is not detached from the scene, and
no render resources are disposed — `updateChunks` delegates all destruction
to the separate `manageChunkCache` eviction step it runs at the end. -/
theorem hidden_chunks_stay_cached (st : CState) (f : ChunkKey → Bool) (px pz : ℚ)
    (k : ChunkKey) (r : ChunkRec)
    (hchanged : st.lastChunk ≠ some ((getChunkCoord px, getChunkCoord pz) : ChunkKey))
    (hvis : k ∈ st.visibleChunkKeys)
    (hnew : k ∉ newVisibleList st.renderDistance (getChunkCoord px, getChunkCoord pz) f)
    (hcached : mapFind st.chunks k = some r) :
    updateChunks st f px pz
      = manageChunkCache
          (updateChunksVisibility st f (getChunkCoord px, getChunkCoord pz))
          (getChunkCoord px) (getChunkCoord pz) ∧
    mapFind (updateChunksVisibility st f (getChunkCoord px, getChunkCoord pz)).chunks k
      = some ⟨false⟩ ∧
    (k ∈ st.sceneKeys →
      k ∈ (updateChunksVisibility st f (getChunkCoord px, getChunkCoord pz)).sceneKeys) ∧
    (updateChunksVisibility st f (getChunkCoord px, getChunkCoord pz)).disposedKeys
      = st.disposedKeys := by
  obtain ⟨h1, h2, h3⟩ :=
    visibility_hides_only st f (getChunkCoord px, getChunkCoord pz) k r hvis hnew hcached
  refine ⟨?_, h1, h2, h3⟩
  simp only [updateChunks]
  rw [if_neg hchanged]

/-- Witness for C6: viewer moves into chunk (0,0) with a frustum that rejects
everything; the previously visible cached chunk (5,5) is hidden but stays
cached, attached, and undisposed. -/
theorem hidden_chunks_stay_cached_witness :
    updateChunks oneChunkState (fun _ => false) 0 0
      = manageChunkCache
          (updateChunksVisibility oneChunkState (fun _ => false)
            (getChunkCoord 0, getChunkCoord 0))
          (getChunkCoord 0) (getChunkCoord 0) ∧
    mapFind (updateChunksVisibility oneChunkState (fun _ => false)
        (getChunkCoord 0, getChunkCoord 0)).chunks (5, 5)
      = some ⟨false⟩ ∧
    (((5, 5) : ChunkKey) ∈ oneChunkState.sceneKeys →
      ((5, 5) : ChunkKey) ∈ (updateChunksVisibility oneChunkState (fun _ => false)
        (getChunkCoord 0, getChunkCoord 0)).sceneKeys) ∧
    (updateChunksVisibility oneChunkState (fun _ => false)
        (getChunkCoord 0, getChunkCoord 0)).disposedKeys
      = oneChunkState.disposedKeys :=
  hidden_chunks_stay_cached oneChunkState (fun _ => false) 0 0 (5, 5) ⟨true⟩
    (by decide) (by decide) (by decide) (by decide)

/-- C2 counterexample: with the worker initialized, a fresh `updateChunks`
call for viewer chunk (0,0) returns with the viewer's chunk still absent
from the cache — `ensureChunkNow` is an async function that awaits the
worker, and `updateChunks` does not await it, so realization of the viewer
chunk is deferred to the worker response rather than completed
synchronously. -/
theorem player_chunk_not_realized_with_worker_counterexample :
    (freshState true).lastChunk ≠ some ((getChunkCoord 0, getChunkCoord 0) : ChunkKey) ∧
    (freshState true).workerOn = true ∧
    mapFind (updateChunks (freshState true) (fun _ => false) 0 0).chunks
      (getChunkCoord 0, getChunkCoord 0) = none ∧
    (updateChunks (freshState true) (fun _ => false) 0 0).pendingKeys
      = [(getChunkCoord 0, getChunkCoord 0)] := by
  refine ⟨by decide, by decide, by decide, by decide⟩

/-- Core of C2, for an arbitrary viewer chunk coordinate: the update body
(visibility pass plus eviction) synchronously realizes the viewer chunk when
no worker is initialized, and never enqueues the viewer chunk. -/
theorem update_body_realizes_sync (st : CState) (f : ChunkKey → Bool) (c : ChunkKey)
    (hw : st.workerOn = false)
    (hin : outOfWorld c.1 c.2 = false)
    (hscene : c ∈ st.sceneKeys ∨ mapFind st.chunks c = none) :
    mapFind (manageChunkCache (updateChunksVisibility st f c) c.1 c.2).chunks c
      = some ⟨true⟩ ∧
    c ∈ (manageChunkCache (updateChunksVisibility st f c) c.1 c.2).sceneKeys ∧
    c ∈ (manageChunkCache (updateChunksVisibility st f c) c.1 c.2).visibleChunkKeys ∧
    (∀ t ∈ (manageChunkCache (updateChunksVisibility st f c) c.1 c.2).chunkQueue,
      t ∈ st.chunkQueue ∨ t.key ≠ c) := by
  obtain ⟨hchunks, hscene', hdisp, hviskeys, hqueue⟩ := updateChunksVisibility_parts st f c
  have hsync := ensureChunkNow_sync_realizes { st with lastChunk := some c } c.1 c.2
    (show ({ st with lastChunk := some c } : CState).workerOn = false from hw) hin
  have hfindc : mapFind (ensureChunkNow { st with lastChunk := some c } c.1 c.2).chunks c
      = some ⟨true⟩ := hsync.1
  have hnear : distSq c (c.1, c.2) ≤ CHUNK_UNLOAD_DISTANCE * CHUNK_UNLOAD_DISTANCE := by
    have hz : distSq c (c.1, c.2) = 0 := by
      simp [distSq]
    rw [hz]
    decide
  obtain ⟨hm1, hm2, hm3⟩ := manageChunkCache_preserves_near (updateChunksVisibility st f c)
    c.1 c.2 c hnear
  have hcnew : c ∈ newVisibleList st.renderDistance c f := List.mem_cons_self _ _
  refine ⟨?_, ?_, ?_, ?_⟩
  · rw [hm1, hchunks, mapFind_hideMissing, hfindc]
    simp only [Option.map_some']
    rw [if_neg (fun hcon => hcon.2 hcnew)]
  · rw [hm2, hscene']
    exact hsync.2.2 hscene
  · rw [hm3, hviskeys]
    exact hcnew
  · intro t ht
    rw [manageChunkCache_queue] at ht
    rcases hqueue t ht with hin' | hin'
    · exact Or.inl hin'
    · exact Or.inr (ringCandidates_ne_center _ _ _ _ hin')

/-- C2 (amended): the viewer's chunk is realized without ever passing
through the task queue (every task enqueued by the update is for a
coordinate other than the viewer's), and — when the worker is NOT
initialized, the viewer chunk is in bounds, and the viewer chunk actually
changed — the chunk is synchronously cached, attached to the scene, and
visible by the time `updateChunks` returns.  (With the worker active, the
update only posts the generation request synchronously; realization
completes on the worker response.) -/
theorem player_chunk_realized_synchronously_without_worker (st : CState)
    (f : ChunkKey → Bool) (px pz : ℚ)
    (hw : st.workerOn = false)
    (hchanged : st.lastChunk ≠ some ((getChunkCoord px, getChunkCoord pz) : ChunkKey))
    (hin : outOfWorld (getChunkCoord px) (getChunkCoord pz) = false)
    (hscene : ((getChunkCoord px, getChunkCoord pz) : ChunkKey) ∈ st.sceneKeys ∨
      mapFind st.chunks ((getChunkCoord px, getChunkCoord pz) : ChunkKey) = none) :
    mapFind (updateChunks st f px pz).chunks (getChunkCoord px, getChunkCoord pz)
      = some ⟨true⟩ ∧
    ((getChunkCoord px, getChunkCoord pz) : ChunkKey) ∈ (updateChunks st f px pz).sceneKeys ∧
    ((getChunkCoord px, getChunkCoord pz) : ChunkKey)
      ∈ (updateChunks st f px pz).visibleChunkKeys ∧
    (∀ t ∈ (updateChunks st f px pz).chunkQueue,
      t ∈ st.chunkQueue ∨ t.key ≠ ((getChunkCoord px, getChunkCoord pz) : ChunkKey)) := by
  have hupd : updateChunks st f px pz
      = manageChunkCache
          (updateChunksVisibility st f (getChunkCoord px, getChunkCoord pz))
          ((getChunkCoord px, getChunkCoord pz) : ChunkKey).1
          ((getChunkCoord px, getChunkCoord pz) : ChunkKey).2 := by
    simp only [updateChunks]
    rw [if_neg hchanged]
  obtain ⟨h1, h2, h3, h4⟩ :=
    update_body_realizes_sync st f (getChunkCoord px, getChunkCoord pz) hw hin hscene
  rw [hupd]
  exact ⟨h1, h2, h3, h4⟩

/-- Witness for C2 (amended): a fresh no-worker state, viewer at the origin,
frustum rejecting everything: chunk (0,0) is cached, attached, visible, and
never enqueued. -/
theorem player_chunk_realized_synchronously_without_worker_witness :
    mapFind (updateChunks (freshState false) (fun _ => false) 0 0).chunks
      (getChunkCoord 0, getChunkCoord 0) = some ⟨true⟩ ∧
    ((getChunkCoord 0, getChunkCoord 0) : ChunkKey)
      ∈ (updateChunks (freshState false) (fun _ => false) 0 0).sceneKeys ∧
    ((getChunkCoord 0, getChunkCoord 0) : ChunkKey)
      ∈ (updateChunks (freshState false) (fun _ => false) 0 0).visibleChunkKeys ∧
    (∀ t ∈ (updateChunks (freshState false) (fun _ => false) 0 0).chunkQueue,
      t ∈ (freshState false).chunkQueue ∨
        t.key ≠ ((getChunkCoord 0, getChunkCoord 0) : ChunkKey)) :=
  player_chunk_realized_synchronously_without_worker (freshState false) (fun _ => false) 0 0
    (by decide) (by decide) (by decide) (Or.inr rfl)

/-! ### Pre-generation lemmas -/

theorem mem_insortBy {α : Type} (le : α → α → Bool) (a x : α) (l : List α) :
    x ∈ insortBy le a l ↔ x = a ∨ x ∈ l := by
  induction l with
  | nil => simp [insortBy]
  | cons b l ih =>
    unfold insortBy
    by_cases hab : le a b = true
    · rw [if_pos hab]
      simp [List.mem_cons]
    · rw [if_neg hab]
      simp only [List.mem_cons, ih]
      tauto

theorem pairwise_insort_key (a : ChunkKey × ℤ) (l : List (ChunkKey × ℤ))
    (h : List.Pairwise (fun x y : ChunkKey × ℤ => x.2 ≤ y.2) l) :
    List.Pairwise (fun x y : ChunkKey × ℤ => x.2 ≤ y.2)
      (insortBy (fun x y => decide (x.2 ≤ y.2)) a l) := by
  induction l with
  | nil => simp [insortBy]
  | cons b l ih =>
    rw [List.pairwise_cons] at h
    obtain ⟨hb, hl⟩ := h
    unfold insortBy
    by_cases hab : a.2 ≤ b.2
    · rw [if_pos (by simpa using hab)]
      rw [List.pairwise_cons]
      refine ⟨?_, List.pairwise_cons.mpr ⟨hb, hl⟩⟩
      intro x hx
      rcases List.mem_cons.mp hx with rfl | hx'
      · exact hab
      · exact le_trans hab (hb x hx')
    · rw [if_neg (by simpa using hab)]
      rw [List.pairwise_cons]
      refine ⟨?_, ih hl⟩
      intro x hx
      rcases (mem_insortBy _ a x l).mp hx with rfl | hx'
      · exact le_of_not_le hab
      · exact hb x hx'

theorem pairwise_sortBy_key (l : List (ChunkKey × ℤ)) :
    List.Pairwise (fun x y : ChunkKey × ℤ => x.2 ≤ y.2)
      (sortBy (fun x y => decide (x.2 ≤ y.2)) l) := by
  induction l with
  | nil => simp [sortBy]
  | cons a l ih =>
    unfold sortBy
    exact pairwise_insort_key a _ ih

theorem spiral_keys_nonneg (cx cz : ℤ) (radius : ℕ) :
    ∀ e ∈ spiralEntries cx cz radius, 0 ≤ e.2 := by
  intro e he
  unfold spiralEntries at he
  simp only [List.mem_flatMap, List.mem_range] at he
  obtain ⟨r, hr, he⟩ := he
  by_cases hr0 : r = 0
  · rw [if_pos hr0] at he
    rcases List.mem_singleton.mp he with rfl
    exact le_refl 0
  · rw [if_neg hr0] at he
    simp only [List.mem_flatMap, List.mem_filterMap] at he
    obtain ⟨dx, -, dz, -, hsome⟩ := he
    by_cases h1 : dx.natAbs = r ∨ dz.natAbs = r
    · rw [if_pos h1] at hsome
      by_cases h2 : outOfWorld (cx + dx) (cz + dz) = true
      · rw [if_pos h2] at hsome
        cases hsome
      · rw [if_neg h2] at hsome
        injection hsome with h3
        rw [← h3]
        exact add_nonneg (mul_self_nonneg dx) (mul_self_nonneg dz)
    · rw [if_neg h1] at hsome
      cases hsome

theorem ensureChunkNow_workerOn (st : CState) (cx cz : ℤ) :
    (ensureChunkNow st cx cz).workerOn = st.workerOn :=
  (ensureChunkNow_untouched st cx cz).2.2.1

theorem ensure_sync_isSome (st : CState) (cx cz : ℤ)
    (hw : st.workerOn = false) (hb : outOfWorld cx cz = false) :
    (mapFind (ensureChunkNow st cx cz).chunks (cx, cz)).isSome = true := by
  rw [(ensureChunkNow_sync_realizes st cx cz hw hb).1]
  rfl

theorem prerenderBatch_resolved (fuel : ℕ) : ∀ p : PrerenderState,
    (prerenderBatch fuel p).resolved = p.resolved := by
  induction fuel with
  | zero => intro p; rfl
  | succ n ih =>
    intro p
    cases hp : p.positions with
    | nil =>
      simp only [prerenderBatch]
      rw [hp]
    | cons kd rest =>
      obtain ⟨k, d⟩ := kd
      simp only [prerenderBatch]
      rw [hp]
      exact ih _

theorem prerenderBatch_workerOn (fuel : ℕ) : ∀ p : PrerenderState,
    (prerenderBatch fuel p).ctrl.workerOn = p.ctrl.workerOn := by
  induction fuel with
  | zero => intro p; rfl
  | succ n ih =>
    intro p
    cases hp : p.positions with
    | nil =>
      simp only [prerenderBatch]
      rw [hp]
    | cons kd rest =>
      obtain ⟨k, d⟩ := kd
      simp only [prerenderBatch]
      rw [hp]
      rw [ih _]
      exact ensureChunkNow_workerOn _ _ _

theorem prerenderBatch_loaded (fuel : ℕ) : ∀ p : PrerenderState,
    (prerenderBatch fuel p).loadedChunks ≤ p.loadedChunks + fuel := by
  induction fuel with
  | zero => intro p; simp [prerenderBatch]
  | succ n ih =>
    intro p
    cases hp : p.positions with
    | nil =>
      have hfix : prerenderBatch (n + 1) p = p := by
        simp only [prerenderBatch]
        rw [hp]
      rw [hfix]
      omega
    | cons kd rest =>
      obtain ⟨k, d⟩ := kd
      have hstep : prerenderBatch (n + 1) p
          = prerenderBatch n ⟨ensureChunkNow p.ctrl k.1 k.2, rest, p.loadedChunks + 1,
              p.resolved⟩ := by
        simp only [prerenderBatch]
        rw [hp]
      rw [hstep]
      have hrec := ih ⟨ensureChunkNow p.ctrl k.1 k.2, rest, p.loadedChunks + 1, p.resolved⟩
      simp only at hrec
      omega

theorem prerenderBatch_nil (fuel : ℕ) (p : PrerenderState) (h : p.positions = []) :
    prerenderBatch fuel p = p := by
  cases fuel with
  | zero => rfl
  | succ n =>
    simp only [prerenderBatch]
    rw [h]

theorem prerenderBatch_inv (P : List (ChunkKey × ℤ)) (fuel : ℕ) : ∀ p : PrerenderState,
    p.ctrl.workerOn = false →
    (∀ e ∈ P, e ∉ p.positions → outOfWorld e.1.1 e.1.2 = false →
      (mapFind p.ctrl.chunks e.1).isSome = true) →
    (∀ e ∈ P, e ∉ (prerenderBatch fuel p).positions → outOfWorld e.1.1 e.1.2 = false →
      (mapFind (prerenderBatch fuel p).ctrl.chunks e.1).isSome = true) := by
  induction fuel with
  | zero => intro p hw hinv; exact hinv
  | succ n ih =>
    intro p hw hinv
    cases hp : p.positions with
    | nil =>
      have hfix : prerenderBatch (n + 1) p = p := by
        simp only [prerenderBatch]
        rw [hp]
      rw [hfix]
      exact hinv
    | cons kd rest =>
      obtain ⟨k, d⟩ := kd
      have hstep : prerenderBatch (n + 1) p
          = prerenderBatch n ⟨ensureChunkNow p.ctrl k.1 k.2, rest, p.loadedChunks + 1,
              p.resolved⟩ := by
        simp only [prerenderBatch]
        rw [hp]
      rw [hstep]
      apply ih
      · show (ensureChunkNow p.ctrl k.1 k.2).workerOn = false
        rw [ensureChunkNow_workerOn]
        exact hw
      · intro e heP hnot hb
        by_cases hek : e = (k, d)
        · subst hek
          exact ensure_sync_isSome p.ctrl k.1 k.2 hw hb
        · have hnotp : e ∉ p.positions := by
            rw [hp]
            intro hmem
            rcases List.mem_cons.mp hmem with heq | hmem'
            · exact hek heq
            · exact hnot hmem'
          exact ensureChunkNow_cache_mono _ _ _ _ (hinv e heP hnotp hb)

theorem prerenderFrames_resolved_drained (m : ℕ) : ∀ (n : ℕ) (p : PrerenderState),
    (p.resolved = true → p.positions = []) →
    ((prerenderFrames m n p).resolved = true → (prerenderFrames m n p).positions = []) := by
  intro n
  induction n with
  | zero => intro p h; exact h
  | succ n ih =>
    intro p h
    apply ih
    unfold generateNextBatch
    by_cases hq : (prerenderBatch m p).positions = []
    · rw [if_pos hq]
      intro _
      exact hq
    · rw [if_neg hq]
      intro hres
      rw [prerenderBatch_resolved] at hres
      have hnil := h hres
      rw [prerenderBatch_nil m p hnil] at hq
      exact absurd hnil hq

theorem generateNextBatch_workerOn (m : ℕ) (p : PrerenderState) :
    (generateNextBatch m p).ctrl.workerOn = p.ctrl.workerOn := by
  unfold generateNextBatch
  by_cases hq : (prerenderBatch m p).positions = []
  · rw [if_pos hq]
    exact prerenderBatch_workerOn m p
  · rw [if_neg hq]
    exact prerenderBatch_workerOn m p

theorem generateNextBatch_inv (P : List (ChunkKey × ℤ)) (m : ℕ) (p : PrerenderState)
    (hw : p.ctrl.workerOn = false)
    (hinv : ∀ e ∈ P, e ∉ p.positions → outOfWorld e.1.1 e.1.2 = false →
      (mapFind p.ctrl.chunks e.1).isSome = true) :
    ∀ e ∈ P, e ∉ (generateNextBatch m p).positions → outOfWorld e.1.1 e.1.2 = false →
      (mapFind (generateNextBatch m p).ctrl.chunks e.1).isSome = true := by
  unfold generateNextBatch
  by_cases hq : (prerenderBatch m p).positions = []
  · rw [if_pos hq]
    exact prerenderBatch_inv P m p hw hinv
  · rw [if_neg hq]
    exact prerenderBatch_inv P m p hw hinv

theorem prerenderFrames_inv (P : List (ChunkKey × ℤ)) (m : ℕ) : ∀ (n : ℕ) (p : PrerenderState),
    p.ctrl.workerOn = false →
    (∀ e ∈ P, e ∉ p.positions → outOfWorld e.1.1 e.1.2 = false →
      (mapFind p.ctrl.chunks e.1).isSome = true) →
    (∀ e ∈ P, e ∉ (prerenderFrames m n p).positions → outOfWorld e.1.1 e.1.2 = false →
      (mapFind (prerenderFrames m n p).ctrl.chunks e.1).isSome = true) := by
  intro n
  induction n with
  | zero => intro p hw hinv; exact hinv
  | succ n ih =>
    intro p hw hinv
    apply ih
    · rw [generateNextBatch_workerOn]
      exact hw
    · exact generateNextBatch_inv P m p hw hinv

/-- C9 counterexample: with the worker active, a `prerenderArea` run drains
its queue and resolves its promise while the cache is still empty — every
coordinate was merely requested from the worker (all five requests pending),
none has been realized.  This refutes the claim that the promise resolves
only once every coordinate has actually been generated, cached, and
attached. -/
theorem prerender_resolves_before_realization_counterexample :
    prerenderWorkerTrace.resolved = true ∧
    prerenderWorkerTrace.positions = [] ∧
    prerenderWorkerTrace.ctrl.chunks = [] ∧
    prerenderWorkerTrace.ctrl.pendingKeys ≠ [] := by
  refine ⟨by decide, by decide, by decide, by decide⟩

/-- C9 (amended): the bulk pre-generation visits coordinates in
nondecreasing sort-key order, where town-hall entries carry negative keys
and all spiral entries carry their nonnegative squared distance from the
center — so landmarks come first and the rest follow in increasing
distance; each animation frame processes at most `maxPerFrame` coordinates;
the promise resolves only once the position queue has drained; and every
dequeued in-bounds coordinate has had realization initiated — with the
synchronous (no-worker) generation path this means it is actually cached
(with the worker, requests may still be pending at resolution). -/
theorem prerenderArea_contract (st : CState) (cX cZ : ℚ) (radius m n : ℕ) :
    List.Pairwise (fun a b : ChunkKey × ℤ => a.2 ≤ b.2)
      (prerenderPositions (getChunkCoord cX) (getChunkCoord cZ) radius) ∧
    (∀ e ∈ townHallChunkEntries, e.2 < 0) ∧
    (∀ e ∈ spiralEntries (getChunkCoord cX) (getChunkCoord cZ) radius, 0 ≤ e.2) ∧
    (∀ p : PrerenderState, (generateNextBatch m p).loadedChunks ≤ p.loadedChunks + m) ∧
    ((prerenderFrames m n (prerenderStart st cX cZ radius)).resolved = true →
      (prerenderFrames m n (prerenderStart st cX cZ radius)).positions = []) ∧
    (st.workerOn = false →
      ∀ e ∈ prerenderPositions (getChunkCoord cX) (getChunkCoord cZ) radius,
        e ∉ (prerenderFrames m n (prerenderStart st cX cZ radius)).positions →
        outOfWorld e.1.1 e.1.2 = false →
        (mapFind (prerenderFrames m n (prerenderStart st cX cZ radius)).ctrl.chunks e.1).isSome
          = true) := by
  refine ⟨pairwise_sortBy_key _, by decide, spiral_keys_nonneg _ _ _, ?_, ?_, ?_⟩
  · intro p
    unfold generateNextBatch
    by_cases hq : (prerenderBatch m p).positions = []
    · rw [if_pos hq]
      exact prerenderBatch_loaded m p
    · rw [if_neg hq]
      exact prerenderBatch_loaded m p
  · apply prerenderFrames_resolved_drained
    intro hres
    exact absurd hres (by simp [prerenderStart])
  · intro hw
    apply prerenderFrames_inv
    · exact hw
    · intro e heP hnot hb
      exact absurd heP hnot

/-- Witness for C9 (amended): in the synchronous no-worker run with center
(0,0) and radius 0, once the frames have drained the queue the center chunk
is actually cached. -/
theorem prerenderArea_contract_witness :
    (mapFind (prerenderFrames 4 2 (prerenderStart (freshState false) 0 0 0)).ctrl.chunks
      (0, 0)).isSome = true :=
  (prerenderArea_contract (freshState false) 0 0 0 4 2).2.2.2.2.2 (by decide)
    ((0, 0), 0) (by decide) (by decide) (by decide)

end Everything

end Voxel
